import Mathlib

/-!
# Verification of the captcha-generator image pipeline

A shallow embedding of the Rust sources (`src/lib.rs`) of the
captcha-generator crate.  Machine integers are modelled with `Nat`/`Int`,
`f32` values with `Rat`, and the thread-local random generator with an
explicit stream of values threaded through every stage.  Calls that can
panic in Rust (`gen_range` on an empty range, `put_pixel`/`get_pixel` out
of bounds, `unwrap`) are modelled as `Option`-returning operations, with
`none` standing for the panic.

The trigonometric functions `sin`/`cos` (computed on `f32` in the source)
are kept abstract: every definition that needs them receives them as
explicit function arguments.  Likewise, the embedded TTF font is kept
abstract as a record of the metrics the code reads from it (advance width,
bounding box, coverage mask).
-/

/-- An RGB pixel; the Rust code stores channels as `u8`, every value the
pipeline writes is in `[0,255]`. -/
structure Rgb where
  r : Nat
  g : Nat
  b : Nat
deriving DecidableEq, Repr

/-- The pixel buffer: `image::RgbImage` with explicit dimensions and a
pixel map. -/
structure RgbImage where
  width : Nat
  height : Nat
  pix : Nat → Nat → Rgb

/-- `RgbImage::new` zero-initialises every pixel. -/
def RgbImage.new (w h : Nat) : RgbImage :=
  ⟨w, h, fun _ _ => ⟨0, 0, 0⟩⟩

/-- In-bounds pixel write (the code of `put_pixel` after its bound check). -/
def setPix (img : RgbImage) (x y : Nat) (c : Rgb) : RgbImage :=
  { img with pix := fun a b => if a = x ∧ b = y then c else img.pix a b }

/-- `RgbImage::put_pixel`: panics (`none`) when the coordinate is out of
bounds, otherwise overwrites the pixel. -/
def putPixel (img : RgbImage) (x y : Nat) (c : Rgb) : Option RgbImage :=
  if x < img.width ∧ y < img.height then some (setPix img x y c) else none

/-- `RgbImage::get_pixel`: panics (`none`) when out of bounds. -/
def getPixel (img : RgbImage) (x y : Nat) : Option Rgb :=
  if x < img.width ∧ y < img.height then some (img.pix x y) else none

/-- The random source: a stream of `Nat` draws (for integer ranges), a
stream of `Rat` draws (for float ranges and booleans), and a position.
Each `gen_range`/`gen_bool` call consumes one position. -/
structure Rng where
  nats : Nat → Nat
  rats : Nat → Rat
  idx : Nat

/-- Advance the random source by one consumed draw. -/
def Rng.next (r : Rng) : Rng :=
  { r with idx := r.idx + 1 }

/-- Fractional part of a rational, in `[0,1)`. -/
def ratFract (q : Rat) : Rat :=
  q - (⌊q⌋ : Int)

/-- `rng.gen_range(lo..hi)` on an integer range: panics (`none`) when the
range is empty, otherwise returns a value in `[lo, hi)`. -/
def genRangeNat (lo hi : Nat) (r : Rng) : Option (Nat × Rng) :=
  if lo < hi then some (lo + r.nats r.idx % (hi - lo), r.next) else none

/-- `rng.gen_range(lo..hi)` on an `f32` range: panics (`none`) when the
range is empty, otherwise returns a value in `[lo, hi)`. -/
def genRangeRat (lo hi : Rat) (r : Rng) : Option (Rat × Rng) :=
  if lo < hi then some (lo + ratFract (r.rats r.idx) * (hi - lo), r.next) else none

/-- `rng.gen_bool(p)`. -/
def genBool (p : Rat) (r : Rng) : Bool × Rng :=
  (decide (ratFract (r.rats r.idx) < p), r.next)

/-- Truncation toward zero, the rounding of Rust's float-to-int `as` casts. -/
def ratTrunc (q : Rat) : Int :=
  if 0 ≤ q then ⌊q⌋ else ⌈q⌉

/-- Rust's saturating `f32 as i32` cast. -/
def f32AsI32 (q : Rat) : Int :=
  max (-(2 ^ 31)) (min (2 ^ 31 - 1) (ratTrunc q))

/-- Rust's saturating `f32 as u8` cast. -/
def f32AsU8 (q : Rat) : Nat :=
  (max 0 (min 255 (ratTrunc q))).toNat

/-- The `(v).max(0).min(upper) as u32` clamping idiom of the source, as a
`Nat`-valued function. -/
def rustClamp0 (v upper : Int) : Nat :=
  (min (max v 0) upper).toNat

example : ratFract (7 / 2 : Rat) = 1 / 2 := by with_unfolding_all decide
example : ratTrunc (-(3 / 2) : Rat) = -1 := by with_unfolding_all decide
example : f32AsU8 (254 / 2 : Rat) = 127 := by with_unfolding_all decide
example : rustClamp0 (-3) 9 = 0 := by decide
example : rustClamp0 12 9 = 9 := by decide

/-! ## The character set and code generation (`generate_code`) -/

/-- The restricted character set of `generate_code` (`src/lib.rs:90`). -/
def charset : List Char :=
  "23456789ABCDEFGHJKLMNPQRSTUVWXYZ".toList

/-- `generate_code(len)` (`src/lib.rs:87-97`): `len` independent draws of
`gen_range(0..charset.len())`, each indexing into the charset
(`nth(idx).unwrap()`, the panic modelled as `none`). -/
def generate_code : Nat → Rng → Option (List Char × Rng)
  | 0, r => some ([], r)
  | Nat.succ n, r => do
    let (idx, r1) ← genRangeNat 0 charset.length r
    let c ← charset.get? idx
    let (rest, r2) ← generate_code n r1
    pure (c :: rest, r2)

/-! ## Background synthesis (`create_background`) -/

/-- Rust's `u8::clamp(lo, hi)`. -/
def u8Clamp (v lo hi : Nat) : Nat :=
  min (max v lo) hi

/-- The three random draws producing one background pixel
(`src/lib.rs:106-109`). -/
def bgPixelDraws (r : Rng) : Option (Rgb × Rng) := do
  let (b0, r1) ← genRangeNat 0 10 r
  let base := 245 + b0
  let (g0, r2) ← genRangeNat 0 5 r1
  let (b1, r3) ← genRangeNat 0 5 r2
  pure (⟨base, u8Clamp (base - g0) 240 255, u8Clamp (base - b1) 240 255⟩, r3)

/-- The inner `for x in 0..width` loop of `create_background`. -/
def bgRow (y : Nat) : List Nat → RgbImage → Rng → Option (RgbImage × Rng)
  | [], img, r => some (img, r)
  | x :: xs, img, r => do
    let (px, r1) ← bgPixelDraws r
    let img1 ← putPixel img x y px
    bgRow y xs img1 r1

/-- The outer `for y in 0..height` loop of `create_background`. -/
def bgRows (w : Nat) : List Nat → RgbImage → Rng → Option (RgbImage × Rng)
  | [], img, r => some (img, r)
  | y :: ys, img, r => do
    let (img1, r1) ← bgRow y (List.range w) img r
    bgRows w ys img1 r1

/-- `create_background(width, height)` (`src/lib.rs:100-114`). -/
def create_background (width height : Nat) (r : Rng) : Option (RgbImage × Rng) :=
  bgRows width (List.range height) (RgbImage.new width height) r

/-! ## Glyph rendering (`draw_character`, `draw_text`) -/

/-- The glyph bounding box the code reads (`exact_bounding_box`):
`min.x`, `min.y`, `width()`, `height()`. -/
structure BBox where
  min_x : Rat
  min_y : Rat
  w : Rat
  h : Rat

/-- The font data the code reads from the embedded TTF: per character and
scale, the horizontal advance width, the optional exact bounding box, and
the rasterised coverage mask (the `(gx, gy, v)` triples that
`glyph.draw` enumerates). -/
structure FontM where
  advance : Rat → Char → Rat
  bbox : Rat → Char → Option BBox
  mask : Rat → Char → List (Nat × Nat × Rat)

/-- `CharDrawParams` (`src/lib.rs:117-122`). -/
structure CharDrawParams where
  x_offset : Rat
  y_offset : Rat
  rotation : Rat
  color : Rgb

/-- One channel of the straight-alpha blend `bg*(1-a) + color*a` followed
by the `as u8` cast (`src/lib.rs:158-160`). -/
def blendChannel (bg c : Nat) (a : Rat) : Nat :=
  f32AsU8 ((bg : Rat) * (1 - a) + (c : Rat) * a)

/-- The transformed x pixel coordinate of a mask sample
(`src/lib.rs:136-147`): centre on the bounding box, rotate, translate,
`as i32`. -/
def sampleFx (bb : BBox) (params : CharDrawParams) (cos_r sin_r : Rat) (gx gy : Nat) : Int :=
  f32AsI32 (((gx : Rat) - bb.w / 2) * cos_r - ((gy : Rat) - bb.h / 2) * sin_r
    + bb.w / 2 + params.x_offset + bb.min_x)

/-- The transformed y pixel coordinate of a mask sample
(`src/lib.rs:136-148`). -/
def sampleFy (bb : BBox) (params : CharDrawParams) (cos_r sin_r : Rat) (gx gy : Nat) : Int :=
  f32AsI32 (((gx : Rat) - bb.w / 2) * sin_r + ((gy : Rat) - bb.h / 2) * cos_r
    + bb.h / 2 + params.y_offset + bb.min_y)

/-- The body of the `glyph.draw` closure (`src/lib.rs:131-165`) for one
coverage sample `(gx, gy, v)`. -/
def drawSample (img : RgbImage) (bb : BBox) (params : CharDrawParams)
    (cos_r sin_r : Rat) (gx gy : Nat) (v : Rat) : RgbImage :=
  if v < 1 / 100 then img
  else
    let final_x := sampleFx bb params cos_r sin_r gx gy
    let final_y := sampleFy bb params cos_r sin_r gx gy
    if 0 ≤ final_x ∧ 0 ≤ final_y then
      let fx := final_x.toNat
      let fy := final_y.toNat
      if fx < img.width ∧ fy < img.height then
        let bg := img.pix fx fy
        setPix img fx fy
          ⟨blendChannel bg.r params.color.r v,
           blendChannel bg.g params.color.g v,
           blendChannel bg.b params.color.b v⟩
      else img
    else img

/-- `draw_character` (`src/lib.rs:125-167`): nothing happens when the
glyph has no exact bounding box; otherwise every coverage sample is
processed in order. -/
def draw_character (sinA cosA : Rat → Rat) (img : RgbImage) (ch : Char)
    (params : CharDrawParams) (font : FontM) (scale : Rat) : RgbImage :=
  match font.bbox scale ch with
  | none => img
  | some bb =>
    let cos_r := cosA params.rotation
    let sin_r := sinA params.rotation
    (font.mask scale ch).foldl
      (fun im s => drawSample im bb params cos_r sin_r s.1 s.2.1 s.2.2) img

/-- The fixed inter-character spacing of `draw_text` (`src/lib.rs:175`). -/
def charSpacing : Rat := 8

/-- The `total_width` computation of `draw_text` (`src/lib.rs:176-182`):
accumulate advance plus spacing per character, then subtract one
spacing. -/
def totalWidth (font : FontM) (scale : Rat) (text : List Char) : Rat :=
  (text.foldl (fun acc ch => acc + font.advance scale ch + charSpacing) 0) - charSpacing

/-- `start_x` of `draw_text` (`src/lib.rs:184`). -/
def startX (w : Nat) (tw : Rat) : Rat :=
  ((w : Rat) - tw) / 2

/-- `base_y` of `draw_text` (`src/lib.rs:185`). -/
def baseY (h : Nat) (font_size : Rat) : Rat :=
  (h : Rat) / 2 + font_size / 3

/-- The per-character loop of `draw_text` (`src/lib.rs:189-213`): sample
rotation, vertical jitter, horizontal jitter and a colour, draw the
character, and advance the cursor by `advance + char_spacing`. -/
def drawTextLoop (sinA cosA : Rat → Rat) (font : FontM) (scale : Rat) (base_y : Rat) :
    List Char → RgbImage → Rat → Rng → Option (RgbImage × Rng)
  | [], img, _, r => some (img, r)
  | ch :: rest, img, current_x, r => do
    let advance := font.advance scale ch
    let (rotation, r1) ← genRangeRat (-(26 / 100)) (26 / 100) r
    let (yj, r2) ← genRangeRat (-5) 5 r1
    let (xj, r3) ← genRangeRat (-2) 2 r2
    let (c0, r4) ← genRangeNat 30 70 r3
    let (c1, r5) ← genRangeNat 30 70 r4
    let (c2, r6) ← genRangeNat 30 70 r5
    let params : CharDrawParams :=
      ⟨current_x + xj, base_y + yj, rotation, ⟨c0, c1, c2⟩⟩
    let img1 := draw_character sinA cosA img ch params font scale
    drawTextLoop sinA cosA font scale base_y rest img1 (current_x + advance + charSpacing) r6

/-- `draw_text` (`src/lib.rs:170-214`). -/
def draw_text (sinA cosA : Rat → Rat) (font : FontM) (img : RgbImage)
    (text : List Char) (font_size : Rat) (r : Rng) : Option (RgbImage × Rng) :=
  let scale := font_size
  let tw := totalWidth font scale text
  drawTextLoop sinA cosA font scale (baseY img.height font_size) text img
    (startX img.width tw) r

/-! ## Interference lines (`add_interference_lines`) -/

/-- The `for dy in -thickness..=thickness` loop of one line column
(`src/lib.rs:237-242`): `py = (y as i32 + dy).max(0).min(height-1)`, write
after the explicit `x < width && py < height` check. -/
def lineDyLoop (w h x : Nat) (yv : Rat) (color : Rgb) :
    List Int → RgbImage → RgbImage
  | [], acc => acc
  | dy :: dys, acc =>
    let py := rustClamp0 (f32AsI32 yv + dy) ((h : Int) - 1)
    let acc1 := if x < w ∧ py < h then setPix acc x py color else acc
    lineDyLoop w h x yv color dys acc1

/-- The `for x in 0..width` loop of one interference line
(`src/lib.rs:234-243`): `y = start_y + sin(x*frequency)*amplitude`. -/
def lineXLoop (sinA : Rat → Rat) (w h : Nat) (start_y amp freq : Rat) (color : Rgb) :
    List Nat → RgbImage → RgbImage
  | [], acc => acc
  | x :: xs, acc =>
    let yv := start_y + sinA ((x : Rat) * freq) * amp
    lineXLoop sinA w h start_y amp freq color xs
      (lineDyLoop w h x yv color [-1, 0, 1] acc)

/-- The per-line loop of `add_interference_lines` (`src/lib.rs:222-244`):
colour, starting row, amplitude and frequency draws, then the column
loop. -/
def linesLoop (sinA : Rat → Rat) (w h : Nat) :
    Nat → RgbImage → Rng → Option (RgbImage × Rng)
  | 0, img, r => some (img, r)
  | Nat.succ n, img, r => do
    let (c0, r1) ← genRangeNat 180 210 r
    let (c1, r2) ← genRangeNat 180 210 r1
    let (c2, r3) ← genRangeNat 180 210 r2
    let (sy, r4) ← genRangeNat 0 h r3
    let (amp, r5) ← genRangeRat 8 12 r4
    let (freq, r6) ← genRangeRat (2 / 100) (4 / 100) r5
    linesLoop sinA w h n
      (lineXLoop sinA w h (sy : Rat) amp freq ⟨c0, c1, c2⟩ (List.range w) img) r6

/-- `add_interference_lines` (`src/lib.rs:217-245`): the line count is
`gen_range(min..max)`, a panic (`none`) when the range is empty. -/
def add_interference_lines (sinA : Rat → Rat) (img : RgbImage)
    (line_range : Nat × Nat) (r : Rng) : Option (RgbImage × Rng) := do
  let (n, r1) ← genRangeNat line_range.1 line_range.2 r
  linesLoop sinA img.width img.height n img r1

/-! ## Noise dots (`add_noise_dots`) -/

/-- The colour draw of one dot (`src/lib.rs:257-269`): light gray with
probability one half, otherwise dark gray. -/
def dotColor (light : Bool) (r : Rng) : Option (Rgb × Rng) :=
  if light then do
    let (c0, r1) ← genRangeNat 200 230 r
    let (c1, r2) ← genRangeNat 200 230 r1
    let (c2, r3) ← genRangeNat 200 230 r2
    pure (⟨c0, c1, c2⟩, r3)
  else do
    let (c0, r1) ← genRangeNat 80 140 r
    let (c1, r2) ← genRangeNat 80 140 r1
    let (c2, r3) ← genRangeNat 80 140 r2
    pure (⟨c0, c1, c2⟩, r3)

/-- The speckle loop over the `3 × 3` neighbourhood of a dot
(`src/lib.rs:274-282`): clamp the neighbour coordinate to bounds, then
write it with probability `0.3`. -/
def neighborLoop (w h x y : Nat) (color : Rgb) :
    List (Int × Int) → RgbImage → Rng → Option (RgbImage × Rng)
  | [], img, r => some (img, r)
  | d :: rest, img, r =>
    let nx := rustClamp0 ((x : Int) + d.1) ((w : Int) - 1)
    let ny := rustClamp0 ((y : Int) + d.2) ((h : Int) - 1)
    let (inc, r1) := genBool (3 / 10) r
    if inc then do
      let img1 ← putPixel img nx ny color
      neighborLoop w h x y color rest img1 r1
    else neighborLoop w h x y color rest img r1

/-- The neighbour offsets enumerated by the nested
`for dx in -1..=1 { for dy in -1..=1 }` loops. -/
def neighborOffsets : List (Int × Int) :=
  [(-1, -1), (-1, 0), (-1, 1), (0, -1), (0, 0), (0, 1), (1, -1), (1, 0), (1, 1)]

/-- The `if rng.gen_bool(0.2) { .. }` speckle step of one dot
(`src/lib.rs:273-283`): run the neighbour loop when the drawn boolean is
true, otherwise leave the canvas untouched. -/
def speckle (w h x y : Nat) (color : Rgb) (spk : Bool) (img : RgbImage)
    (r : Rng) : Option (RgbImage × Rng) :=
  if spk then neighborLoop w h x y color neighborOffsets img r
  else some (img, r)

/-- The per-dot loop of `add_noise_dots` (`src/lib.rs:253-284`). -/
def dotsLoop (w h : Nat) : Nat → RgbImage → Rng → Option (RgbImage × Rng)
  | 0, img, r => some (img, r)
  | Nat.succ n, img, r => do
    let (x, r1) ← genRangeNat 0 w r
    let (y, r2) ← genRangeNat 0 h r1
    let light := (genBool (1 / 2) r2).1
    let r3 := (genBool (1 / 2) r2).2
    let (color, r4) ← dotColor light r3
    let img1 ← putPixel img x y color
    let spk := (genBool (1 / 5) r4).1
    let r5 := (genBool (1 / 5) r4).2
    let (img2, r6) ← speckle w h x y color spk img1 r5
    dotsLoop w h n img2 r6

/-- `add_noise_dots` (`src/lib.rs:248-285`). -/
def add_noise_dots (img : RgbImage) (count : Nat) (r : Rng) :
    Option (RgbImage × Rng) :=
  dotsLoop img.width img.height count img r

/-! ## Wave distortion (`add_wave_distortion`) -/

/-- The source column of the wave resampling (`src/lib.rs:299-300`):
`(x as i32 + offset as i32).max(0).min(width-1)`, where `offset` is the
per-row wave value. -/
def waveSrcX (w x : Nat) (offset : Rat) : Nat :=
  rustClamp0 ((x : Int) + f32AsI32 offset) ((w : Int) - 1)

/-- The inner `for x in 0..width` loop of the wave pass
(`src/lib.rs:298-304`): copy the source pixel of the input canvas into the
fresh canvas.  Draws no randomness. -/
def waveRow (sinA : Rat → Rat) (src : RgbImage) (amp freq : Rat) (y : Nat) :
    List Nat → RgbImage → Option RgbImage
  | [], acc => some acc
  | x :: xs, acc => do
    let offset := sinA ((y : Rat) * freq) * amp
    let px ← getPixel src (waveSrcX src.width x offset) y
    let acc1 ← putPixel acc x y px
    waveRow sinA src amp freq y xs acc1

/-- The outer `for y in 0..height` loop of the wave pass
(`src/lib.rs:297-305`). -/
def waveRows (sinA : Rat → Rat) (src : RgbImage) (amp freq : Rat) :
    List Nat → RgbImage → Option RgbImage
  | [], acc => some acc
  | y :: ys, acc => do
    let acc1 ← waveRow sinA src amp freq y (List.range src.width) acc
    waveRows sinA src amp freq ys acc1

/-- `add_wave_distortion` (`src/lib.rs:288-308`): build a fresh background
canvas, sample one amplitude and one frequency, then resample every pixel
of the input canvas into the fresh one. -/
def add_wave_distortion (sinA : Rat → Rat) (img : RgbImage)
    (amplitude_range : Rat × Rat) (r : Rng) : Option (RgbImage × Rng) := do
  let (bg, r1) ← create_background img.width img.height r
  let (amplitude, r2) ← genRangeRat amplitude_range.1 amplitude_range.2 r1
  let (frequency, r3) ← genRangeRat (6 / 100) (9 / 100) r2
  let out ← waveRows sinA img amplitude frequency (List.range img.height) bg
  pure (out, r3)

/-! ## Orchestration (`generate_captcha_image`, `Captcha`) -/

/-- `CaptchaConfig` (`src/lib.rs:10-25`). -/
structure CaptchaConfig where
  width : Nat
  height : Nat
  code_length : Nat
  font_size : Rat
  interference_lines : Nat × Nat
  noise_dots : Nat
  wave_amplitude : Rat × Rat

/-- The default configuration (`src/lib.rs:27-39`). -/
def CaptchaConfig.default : CaptchaConfig :=
  ⟨280, 100, 6, 52, (2, 4), 100, (3 / 2, 5 / 2)⟩

/-- `generate_captcha_image` (`src/lib.rs:311-317`): background, text,
interference lines, noise dots, wave distortion, in that order. -/
def generate_captcha_image (sinA cosA : Rat → Rat) (font : FontM)
    (code : List Char) (config : CaptchaConfig) (r : Rng) :
    Option (RgbImage × Rng) := do
  let (img0, r1) ← create_background config.width config.height r
  let (img1, r2) ← draw_text sinA cosA font img0 code config.font_size r1
  let (img2, r3) ← add_interference_lines sinA img1 config.interference_lines r2
  let (img3, r4) ← add_noise_dots img2 config.noise_dots r3
  add_wave_distortion sinA img3 config.wave_amplitude r4

/-- `Captcha` (`src/lib.rs:43-48`). -/
structure Captcha where
  code : List Char
  image : RgbImage

/-- `Captcha::with_config` (`src/lib.rs:57-62`): generate the code, then
the image, from one random source threaded through both. -/
def Captcha.with_config (sinA cosA : Rat → Rat) (font : FontM)
    (config : CaptchaConfig) (r : Rng) : Option Captcha := do
  let (code, r1) ← generate_code config.code_length r
  let (image, _) ← generate_captcha_image sinA cosA font code config r1
  pure ⟨code, image⟩

/-! ## Basic lemmas about the primitives -/

theorem setPix_width (img : RgbImage) (x y : Nat) (c : Rgb) :
    (setPix img x y c).width = img.width := rfl

theorem setPix_height (img : RgbImage) (x y : Nat) (c : Rgb) :
    (setPix img x y c).height = img.height := rfl

theorem setPix_pix_eq (img : RgbImage) (x y : Nat) (c : Rgb) :
    (setPix img x y c).pix x y = c := by
  simp [setPix]

theorem setPix_pix_ne (img : RgbImage) (x y a b : Nat) (c : Rgb)
    (h : ¬(a = x ∧ b = y)) : (setPix img x y c).pix a b = img.pix a b := by
  simp [setPix, h]

theorem putPixel_pos (img : RgbImage) (x y : Nat) (c : Rgb)
    (hx : x < img.width) (hy : y < img.height) :
    putPixel img x y c = some (setPix img x y c) := by
  simp [putPixel, hx, hy]

theorem putPixel_some (img img2 : RgbImage) (x y : Nat) (c : Rgb)
    (h : putPixel img x y c = some img2) :
    img2 = setPix img x y c ∧ x < img.width ∧ y < img.height := by
  unfold putPixel at h
  split at h
  · next hb => exact ⟨(Option.some.injEq _ _ ▸ h).symm, hb.1, hb.2⟩
  · exact absurd h (by simp)

theorem genRangeNat_pos (lo hi : Nat) (r : Rng) (h : lo < hi) :
    genRangeNat lo hi r = some (lo + r.nats r.idx % (hi - lo), r.next) := by
  simp [genRangeNat, h]

theorem genRangeNat_val_lt (lo hi n : Nat) (h : lo < hi) :
    lo + n % (hi - lo) < hi := by
  have : n % (hi - lo) < hi - lo := Nat.mod_lt _ (by omega)
  omega

theorem genRangeRat_pos (lo hi : Rat) (r : Rng) (h : lo < hi) :
    genRangeRat lo hi r = some (lo + ratFract (r.rats r.idx) * (hi - lo), r.next) := by
  simp [genRangeRat, h]

theorem ratFract_nonneg (q : Rat) : 0 ≤ ratFract q := by
  unfold ratFract
  have := Int.floor_le q
  linarith

theorem ratFract_lt_one (q : Rat) : ratFract q < 1 := by
  unfold ratFract
  have := Int.lt_floor_add_one q
  linarith

theorem rustClamp0_lt (v upper : Int) (w : Nat) (hw : 0 < w)
    (hu : upper = (w : Int) - 1) : rustClamp0 v upper < w := by
  unfold rustClamp0
  omega

theorem u8Clamp_240_255 (v : Nat) :
    240 ≤ u8Clamp v 240 255 ∧ u8Clamp v 240 255 ≤ 255 := by
  unfold u8Clamp
  omega

/-! ## Lemmas about `create_background` -/

/-- All channels of a pixel lie in `[240, 255]`. -/
def pixIn240 (c : Rgb) : Prop :=
  240 ≤ c.r ∧ c.r ≤ 255 ∧ 240 ≤ c.g ∧ c.g ≤ 255 ∧ 240 ≤ c.b ∧ c.b ≤ 255

instance (c : Rgb) : Decidable (pixIn240 c) := by
  unfold pixIn240
  infer_instance

theorem bgPixelDraws_spec (r : Rng) :
    ∃ px r3, bgPixelDraws r = some (px, r3) ∧ pixIn240 px := by
  refine ⟨⟨245 + r.nats r.idx % 10,
      u8Clamp (245 + r.nats r.idx % 10 - r.next.nats r.next.idx % 5) 240 255,
      u8Clamp (245 + r.nats r.idx % 10 - r.next.next.nats r.next.next.idx % 5) 240 255⟩,
      r.next.next.next, ?_, ?_⟩
  · simp [bgPixelDraws, genRangeNat]
  · unfold pixIn240
    dsimp only
    have h10 : r.nats r.idx % 10 < 10 := Nat.mod_lt _ (by omega)
    have hg := u8Clamp_240_255 (245 + r.nats r.idx % 10 - r.next.nats r.next.idx % 5)
    have hb := u8Clamp_240_255 (245 + r.nats r.idx % 10 - r.next.next.nats r.next.next.idx % 5)
    exact ⟨by omega, by omega, hg.1, hg.2, hb.1, hb.2⟩

theorem bgRow_spec (y : Nat) :
    ∀ (xs : List Nat) (img : RgbImage) (r : Rng),
      (∀ x ∈ xs, x < img.width) → y < img.height →
      ∃ img2 r2, bgRow y xs img r = some (img2, r2) ∧
        img2.width = img.width ∧ img2.height = img.height ∧
        (∀ x ∈ xs, pixIn240 (img2.pix x y)) ∧
        (∀ a b, (b ≠ y ∨ a ∉ xs) → img2.pix a b = img.pix a b) := by
  intro xs
  induction xs with
  | nil =>
    intro img r _ _
    exact ⟨img, r, rfl, rfl, rfl, by simp, fun a b _ => rfl⟩
  | cons x xs ih =>
    intro img r hxs hy
    obtain ⟨px, rpx, hpd, hpx⟩ := bgPixelDraws_spec r
    have hx : x < img.width := hxs x (by simp)
    obtain ⟨img2, r2, heq, hw, hh, hmem, hrest⟩ :=
      ih (setPix img x y px) rpx
        (by intro a ha; rw [setPix_width]; exact hxs a (by simp [ha]))
        (by rw [setPix_height]; exact hy)
    refine ⟨img2, r2, ?_, by rw [hw, setPix_width], by rw [hh, setPix_height], ?_, ?_⟩
    · simp only [bgRow, Option.bind_eq_bind, hpd, Option.some_bind',
        putPixel_pos img x y px hx hy]
      simpa using heq
    · intro a ha
      rcases List.mem_cons.mp ha with h1 | h1
      · subst h1
        by_cases hmem2 : a ∈ xs
        · exact hmem a hmem2
        · rw [hrest a y (Or.inr hmem2), setPix_pix_eq]
          exact hpx
      · exact hmem a h1
    · intro a b hab
      have hnotin : b ≠ y ∨ a ∉ xs := by
        rcases hab with h1 | h1
        · exact Or.inl h1
        · exact Or.inr (fun hc => h1 (List.mem_cons_of_mem _ hc))
      rw [hrest a b hnotin]
      apply setPix_pix_ne
      rintro ⟨rfl, rfl⟩
      rcases hab with h1 | h1
      · exact h1 rfl
      · exact h1 (List.mem_cons_self _ _)

theorem bgRows_spec (w : Nat) :
    ∀ (ys : List Nat) (img : RgbImage) (r : Rng),
      img.width = w → (∀ y ∈ ys, y < img.height) →
      ∃ img2 r2, bgRows w ys img r = some (img2, r2) ∧
        img2.width = img.width ∧ img2.height = img.height ∧
        (∀ y ∈ ys, ∀ x, x < w → pixIn240 (img2.pix x y)) ∧
        (∀ a b, b ∉ ys → img2.pix a b = img.pix a b) := by
  intro ys
  induction ys with
  | nil =>
    intro img r _ _
    exact ⟨img, r, rfl, rfl, rfl, by simp, fun a b _ => rfl⟩
  | cons y ys ih =>
    intro img r hw hys
    obtain ⟨img1, r1, heq1, hw1, hh1, hmem1, hrest1⟩ :=
      bgRow_spec y (List.range w) img r
        (by intro a ha; rw [hw]; exact List.mem_range.mp ha)
        (hys y (by simp))
    obtain ⟨img2, r2, heq2, hw2, hh2, hmem2, hrest2⟩ :=
      ih img1 r1 (hw1.trans hw)
        (by intro a ha; rw [hh1]; exact hys a (by simp [ha]))
    refine ⟨img2, r2, ?_, by rw [hw2, hw1], by rw [hh2, hh1], ?_, ?_⟩
    · simp only [bgRows, Option.bind_eq_bind, heq1, Option.some_bind']
      simpa using heq2
    · intro b hb x hx
      rcases List.mem_cons.mp hb with h1 | h1
      · subst h1
        by_cases hbin : b ∈ ys
        · exact hmem2 b hbin x hx
        · rw [hrest2 x b hbin]
          exact hmem1 x (List.mem_range.mpr hx)
      · exact hmem2 b h1 x hx
    · intro a b hb
      have hnb : b ∉ ys := fun hc => hb (List.mem_cons_of_mem _ hc)
      rw [hrest2 a b hnb]
      exact hrest1 a b (Or.inl (fun hc => hb (hc ▸ List.mem_cons_self _ _)))

theorem create_background_spec (w h : Nat) (r : Rng) :
    ∃ img r2, create_background w h r = some (img, r2) ∧
      img.width = w ∧ img.height = h ∧
      (∀ x y, x < w → y < h → pixIn240 (img.pix x y)) := by
  obtain ⟨img, r2, heq, hw, hh, hmem, _⟩ :=
    bgRows_spec w (List.range h) (RgbImage.new w h) r rfl
      (by intro a ha; exact List.mem_range.mp ha)
  exact ⟨img, r2, heq, hw, hh, fun x y hx hy => hmem y (List.mem_range.mpr hy) x hx⟩

/-! ### Lemmas about glyph rendering -/

theorem drawSample_dims (img : RgbImage) (bb : BBox) (params : CharDrawParams)
    (cos_r sin_r : Rat) (gx gy : Nat) (v : Rat) :
    (drawSample img bb params cos_r sin_r gx gy v).width = img.width ∧
    (drawSample img bb params cos_r sin_r gx gy v).height = img.height := by
  unfold drawSample
  split
  · exact ⟨rfl, rfl⟩
  · dsimp only
    split
    · split
      · exact ⟨rfl, rfl⟩
      · exact ⟨rfl, rfl⟩
    · exact ⟨rfl, rfl⟩

theorem foldl_drawSample_dims (bb : BBox) (params : CharDrawParams) (cos_r sin_r : Rat) :
    ∀ (l : List (Nat × Nat × Rat)) (img : RgbImage),
      ((l.foldl (fun im s => drawSample im bb params cos_r sin_r s.1 s.2.1 s.2.2) img).width
          = img.width ∧
       (l.foldl (fun im s => drawSample im bb params cos_r sin_r s.1 s.2.1 s.2.2) img).height
          = img.height) := by
  intro l
  induction l with
  | nil => intro img; exact ⟨rfl, rfl⟩
  | cons s l ih =>
    intro img
    simp only [List.foldl_cons]
    have h1 := drawSample_dims img bb params cos_r sin_r s.1 s.2.1 s.2.2
    have h2 := ih (drawSample img bb params cos_r sin_r s.1 s.2.1 s.2.2)
    exact ⟨h2.1.trans h1.1, h2.2.trans h1.2⟩

theorem draw_character_dims (sinA cosA : Rat → Rat) (img : RgbImage) (ch : Char)
    (params : CharDrawParams) (font : FontM) (scale : Rat) :
    (draw_character sinA cosA img ch params font scale).width = img.width ∧
    (draw_character sinA cosA img ch params font scale).height = img.height := by
  unfold draw_character
  cases h : font.bbox scale ch with
  | none => exact ⟨rfl, rfl⟩
  | some bb => exact foldl_drawSample_dims bb params (cosA params.rotation) (sinA params.rotation) _ img

theorem drawTextLoop_some_dims (sinA cosA : Rat → Rat) (font : FontM) (scale base_y : Rat) :
    ∀ (text : List Char) (img : RgbImage) (cx : Rat) (r : Rng) (img2 : RgbImage) (r2 : Rng),
      drawTextLoop sinA cosA font scale base_y text img cx r = some (img2, r2) →
      img2.width = img.width ∧ img2.height = img.height := by
  intro text
  induction text with
  | nil =>
    intro img cx r img2 r2 h
    simp only [drawTextLoop, Option.some.injEq, Prod.mk.injEq] at h
    obtain ⟨h1, h2⟩ := h
    subst h1
    exact ⟨rfl, rfl⟩
  | cons ch rest ih =>
    intro img cx r img2 r2 h
    simp only [drawTextLoop, Option.bind_eq_bind, Option.bind_eq_some] at h
    obtain ⟨⟨rot, r1⟩, _, h⟩ := h
    obtain ⟨⟨yj, r2x⟩, _, h⟩ := h
    obtain ⟨⟨xj, r3⟩, _, h⟩ := h
    obtain ⟨⟨c0, r4⟩, _, h⟩ := h
    obtain ⟨⟨c1, r5⟩, _, h⟩ := h
    obtain ⟨⟨c2, r6⟩, _, h⟩ := h
    have hd := draw_character_dims sinA cosA img ch
      ⟨cx + xj, base_y + yj, rot, ⟨c0, c1, c2⟩⟩ font scale
    have := ih _ _ _ _ _ h
    exact ⟨this.1.trans hd.1, this.2.trans hd.2⟩

theorem drawTextLoop_isSome (sinA cosA : Rat → Rat) (font : FontM) (scale base_y : Rat) :
    ∀ (text : List Char) (img : RgbImage) (cx : Rat) (r : Rng),
      (drawTextLoop sinA cosA font scale base_y text img cx r).isSome = true := by
  intro text
  induction text with
  | nil => intro img cx r; rfl
  | cons ch rest ih =>
    intro img cx r
    have h1 : (-(26 / 100) : Rat) < 26 / 100 := by norm_num
    have h2 : (-5 : Rat) < 5 := by norm_num
    have h3 : (-2 : Rat) < 2 := by norm_num
    have h4 : (30 : Nat) < 70 := by omega
    simp only [drawTextLoop, Option.bind_eq_bind,
      genRangeRat_pos _ _ _ h1, genRangeRat_pos _ _ _ h2, genRangeRat_pos _ _ _ h3,
      genRangeNat_pos _ _ _ h4, Option.some_bind']
    exact ih _ _ _

theorem draw_text_some_dims (sinA cosA : Rat → Rat) (font : FontM) (img : RgbImage)
    (text : List Char) (font_size : Rat) (r : Rng) (img2 : RgbImage) (r2 : Rng)
    (h : draw_text sinA cosA font img text font_size r = some (img2, r2)) :
    img2.width = img.width ∧ img2.height = img.height :=
  drawTextLoop_some_dims sinA cosA font font_size (baseY img.height font_size)
    text img (startX img.width (totalWidth font font_size text)) r img2 r2 h

theorem draw_text_isSome (sinA cosA : Rat → Rat) (font : FontM) (img : RgbImage)
    (text : List Char) (font_size : Rat) (r : Rng) :
    (draw_text sinA cosA font img text font_size r).isSome = true :=
  drawTextLoop_isSome sinA cosA font font_size (baseY img.height font_size)
    text img (startX img.width (totalWidth font font_size text)) r

/-! ### Lemmas about interference lines -/

theorem getPixel_pos (img : RgbImage) (x y : Nat)
    (hx : x < img.width) (hy : y < img.height) :
    getPixel img x y = some (img.pix x y) := by
  simp [getPixel, hx, hy]

theorem lineDyLoop_dims (w h x : Nat) (yv : Rat) (color : Rgb) :
    ∀ (dys : List Int) (acc : RgbImage),
      (lineDyLoop w h x yv color dys acc).width = acc.width ∧
      (lineDyLoop w h x yv color dys acc).height = acc.height := by
  intro dys
  induction dys with
  | nil => intro acc; exact ⟨rfl, rfl⟩
  | cons dy dys ih =>
    intro acc
    simp only [lineDyLoop]
    refine ⟨(ih _).1.trans ?_, (ih _).2.trans ?_⟩
    · split <;> rfl
    · split <;> rfl

theorem lineXLoop_dims (sinA : Rat → Rat) (w h : Nat) (start_y amp freq : Rat) (color : Rgb) :
    ∀ (xs : List Nat) (acc : RgbImage),
      (lineXLoop sinA w h start_y amp freq color xs acc).width = acc.width ∧
      (lineXLoop sinA w h start_y amp freq color xs acc).height = acc.height := by
  intro xs
  induction xs with
  | nil => intro acc; exact ⟨rfl, rfl⟩
  | cons x xs ih =>
    intro acc
    simp only [lineXLoop]
    have hd := lineDyLoop_dims w h x (start_y + sinA ((x : Rat) * freq) * amp) color
      [-1, 0, 1] acc
    exact ⟨(ih _).1.trans hd.1, (ih _).2.trans hd.2⟩

theorem linesLoop_some_dims (sinA : Rat → Rat) (w h : Nat) :
    ∀ (n : Nat) (img : RgbImage) (r : Rng) (img2 : RgbImage) (r2 : Rng),
      linesLoop sinA w h n img r = some (img2, r2) →
      img2.width = img.width ∧ img2.height = img.height := by
  intro n
  induction n with
  | zero =>
    intro img r img2 r2 h
    simp only [linesLoop, Option.some.injEq, Prod.mk.injEq] at h
    obtain ⟨h1, _⟩ := h
    subst h1
    exact ⟨rfl, rfl⟩
  | succ n ih =>
    intro img r img2 r2 heq
    simp only [linesLoop, Option.bind_eq_bind, Option.bind_eq_some] at heq
    obtain ⟨⟨c0, r1⟩, _, heq⟩ := heq
    obtain ⟨⟨c1, r2x⟩, _, heq⟩ := heq
    obtain ⟨⟨c2, r3⟩, _, heq⟩ := heq
    obtain ⟨⟨sy, r4⟩, _, heq⟩ := heq
    obtain ⟨⟨amp, r5⟩, _, heq⟩ := heq
    obtain ⟨⟨freq, r6⟩, _, heq⟩ := heq
    have hdims := ih _ _ _ _ heq
    refine ⟨hdims.1.trans ?_, hdims.2.trans ?_⟩
    · exact (lineXLoop_dims _ _ _ _ _ _ _ _ _).1
    · exact (lineXLoop_dims _ _ _ _ _ _ _ _ _).2

theorem linesLoop_isSome (sinA : Rat → Rat) (w h : Nat) (hh : 0 < h) :
    ∀ (n : Nat) (img : RgbImage) (r : Rng),
      (linesLoop sinA w h n img r).isSome = true := by
  intro n
  induction n with
  | zero => intro img r; rfl
  | succ n ih =>
    intro img r
    have h1 : (180 : Nat) < 210 := by omega
    have h2 : (8 : Rat) < 12 := by norm_num
    have h3 : (2 / 100 : Rat) < 4 / 100 := by norm_num
    simp only [linesLoop, Option.bind_eq_bind,
      genRangeNat_pos _ _ _ h1, genRangeNat_pos _ _ _ hh,
      genRangeRat_pos _ _ _ h2, genRangeRat_pos _ _ _ h3, Option.some_bind']
    exact ih _ _

theorem add_interference_lines_some_dims (sinA : Rat → Rat) (img : RgbImage)
    (lr : Nat × Nat) (r : Rng) (img2 : RgbImage) (r2 : Rng)
    (h : add_interference_lines sinA img lr r = some (img2, r2)) :
    img2.width = img.width ∧ img2.height = img.height := by
  simp only [add_interference_lines, Option.bind_eq_bind, Option.bind_eq_some] at h
  obtain ⟨⟨n, r1⟩, _, h⟩ := h
  exact linesLoop_some_dims sinA img.width img.height n img r1 img2 r2 h

theorem add_interference_lines_isSome (sinA : Rat → Rat) (img : RgbImage)
    (lr : Nat × Nat) (r : Rng) (hl : lr.1 < lr.2) (hh : 0 < img.height) :
    (add_interference_lines sinA img lr r).isSome = true := by
  simp only [add_interference_lines, Option.bind_eq_bind,
    genRangeNat_pos _ _ _ hl, Option.some_bind']
  exact linesLoop_isSome sinA img.width img.height hh _ _ _

/-! ### Lemmas about noise dots -/

theorem dotColor_some (light : Bool) (r : Rng) :
    ∃ c r2, dotColor light r = some (c, r2) := by
  cases light
  · exact ⟨⟨80 + r.nats r.idx % 60, 80 + r.next.nats r.next.idx % 60,
      80 + r.next.next.nats r.next.next.idx % 60⟩, r.next.next.next,
      by simp [dotColor, genRangeNat]⟩
  · exact ⟨⟨200 + r.nats r.idx % 30, 200 + r.next.nats r.next.idx % 30,
      200 + r.next.next.nats r.next.next.idx % 30⟩, r.next.next.next,
      by simp [dotColor, genRangeNat]⟩

theorem neighborLoop_some_dims (w h x y : Nat) (color : Rgb) :
    ∀ (ds : List (Int × Int)) (img : RgbImage) (r : Rng) (img2 : RgbImage) (r2 : Rng),
      neighborLoop w h x y color ds img r = some (img2, r2) →
      img2.width = img.width ∧ img2.height = img.height := by
  intro ds
  induction ds with
  | nil =>
    intro img r img2 r2 heq
    simp only [neighborLoop, Option.some.injEq, Prod.mk.injEq] at heq
    obtain ⟨h1, _⟩ := heq
    subst h1
    exact ⟨rfl, rfl⟩
  | cons d ds ih =>
    intro img r img2 r2 heq
    simp only [neighborLoop] at heq
    split at heq
    · simp only [Option.bind_eq_bind, Option.bind_eq_some] at heq
      obtain ⟨img1, hpp, heq⟩ := heq
      obtain ⟨hset, _, _⟩ := putPixel_some _ _ _ _ _ hpp
      subst hset
      have := ih _ _ _ _ heq
      exact ⟨this.1.trans (setPix_width _ _ _ _), this.2.trans (setPix_height _ _ _ _)⟩
    · exact ih _ _ _ _ heq

theorem neighborLoop_total (w h x y : Nat) (color : Rgb) (hw : 0 < w) (hh : 0 < h) :
    ∀ (ds : List (Int × Int)) (img : RgbImage) (r : Rng),
      img.width = w → img.height = h →
      ∃ img2 r2, neighborLoop w h x y color ds img r = some (img2, r2) ∧
        img2.width = w ∧ img2.height = h := by
  intro ds
  induction ds with
  | nil => intro img r hw1 hh1; exact ⟨img, r, rfl, hw1, hh1⟩
  | cons d ds ih =>
    intro img r hw1 hh1
    simp only [neighborLoop]
    split
    · have hnx : rustClamp0 ((x : Int) + d.1) ((w : Int) - 1) < img.width := by
        rw [hw1]; exact rustClamp0_lt _ _ w hw rfl
      have hny : rustClamp0 ((y : Int) + d.2) ((h : Int) - 1) < img.height := by
        rw [hh1]; exact rustClamp0_lt _ _ h hh rfl
      obtain ⟨img2, r2, heq, hw2, hh2⟩ :=
        ih (setPix img (rustClamp0 ((x : Int) + d.1) ((w : Int) - 1))
              (rustClamp0 ((y : Int) + d.2) ((h : Int) - 1)) color)
          ((genBool (3 / 10) r).2)
          (by rw [setPix_width]; exact hw1) (by rw [setPix_height]; exact hh1)
      refine ⟨img2, r2, ?_, hw2, hh2⟩
      simp only [Option.bind_eq_bind, putPixel_pos _ _ _ _ hnx hny, Option.some_bind']
      exact heq
    · exact ih img ((genBool (3 / 10) r).2) hw1 hh1

theorem speckle_some_dims (w h x y : Nat) (color : Rgb) (spk : Bool)
    (img : RgbImage) (r : Rng) (img2 : RgbImage) (r2 : Rng)
    (heq : speckle w h x y color spk img r = some (img2, r2)) :
    img2.width = img.width ∧ img2.height = img.height := by
  unfold speckle at heq
  split at heq
  · exact neighborLoop_some_dims _ _ _ _ _ _ _ _ _ _ heq
  · simp only [Option.some.injEq, Prod.mk.injEq] at heq
    obtain ⟨h1, _⟩ := heq
    subst h1
    exact ⟨rfl, rfl⟩

theorem speckle_total (w h x y : Nat) (color : Rgb) (spk : Bool)
    (hw : 0 < w) (hh : 0 < h) (img : RgbImage) (r : Rng)
    (hw1 : img.width = w) (hh1 : img.height = h) :
    ∃ img2 r2, speckle w h x y color spk img r = some (img2, r2) ∧
      img2.width = w ∧ img2.height = h := by
  unfold speckle
  split
  · exact neighborLoop_total w h x y color hw hh neighborOffsets img r hw1 hh1
  · exact ⟨img, r, rfl, hw1, hh1⟩

theorem dotsLoop_some_dims (w h : Nat) :
    ∀ (n : Nat) (img : RgbImage) (r : Rng) (img2 : RgbImage) (r2 : Rng),
      dotsLoop w h n img r = some (img2, r2) →
      img2.width = img.width ∧ img2.height = img.height := by
  intro n
  induction n with
  | zero =>
    intro img r img2 r2 heq
    simp only [dotsLoop, Option.some.injEq, Prod.mk.injEq] at heq
    obtain ⟨h1, _⟩ := heq
    subst h1
    exact ⟨rfl, rfl⟩
  | succ n ih =>
    intro img r img2 r2 heq
    simp only [dotsLoop, Option.bind_eq_bind, Option.bind_eq_some] at heq
    obtain ⟨⟨x, r1⟩, _, heq⟩ := heq
    obtain ⟨⟨y, r2x⟩, _, heq⟩ := heq
    obtain ⟨⟨color, r4⟩, _, heq⟩ := heq
    obtain ⟨img1, hpp, heq⟩ := heq
    obtain ⟨hset, _, _⟩ := putPixel_some _ _ _ _ _ hpp
    subst hset
    obtain ⟨⟨img3, r6⟩, hspk, heq⟩ := heq
    have hd1 := speckle_some_dims _ _ _ _ _ _ _ _ _ _ hspk
    have hd2 := ih _ _ _ _ heq
    exact ⟨hd2.1.trans (hd1.1.trans (setPix_width _ _ _ _)),
           hd2.2.trans (hd1.2.trans (setPix_height _ _ _ _))⟩

theorem dotsLoop_total (w h : Nat) (hw : 0 < w) (hh : 0 < h) :
    ∀ (n : Nat) (img : RgbImage) (r : Rng), img.width = w → img.height = h →
      ∃ img2 r2, dotsLoop w h n img r = some (img2, r2) ∧
        img2.width = w ∧ img2.height = h := by
  intro n
  induction n with
  | zero => intro img r hw1 hh1; exact ⟨img, r, rfl, hw1, hh1⟩
  | succ n ih =>
    intro img r hw1 hh1
    obtain ⟨color, rc, hdc⟩ :=
      dotColor_some ((genBool (1 / 2) r.next.next).1) ((genBool (1 / 2) r.next.next).2)
    have hx : 0 + r.nats r.idx % (w - 0) < img.width := by
      rw [hw1]; exact genRangeNat_val_lt 0 w _ hw
    have hy : 0 + r.next.nats r.next.idx % (h - 0) < img.height := by
      rw [hh1]; exact genRangeNat_val_lt 0 h _ hh
    obtain ⟨img2, r6, hspk, hw2, hh2⟩ :=
      speckle_total w h (0 + r.nats r.idx % (w - 0)) (0 + r.next.nats r.next.idx % (h - 0))
        color ((genBool (1 / 5) rc).1) hw hh
        (setPix img (0 + r.nats r.idx % (w - 0)) (0 + r.next.nats r.next.idx % (h - 0)) color)
        ((genBool (1 / 5) rc).2)
        (by rw [setPix_width]; exact hw1) (by rw [setPix_height]; exact hh1)
    obtain ⟨img3, r7, hrec, hw3, hh3⟩ := ih img2 r6 hw2 hh2
    refine ⟨img3, r7, ?_, hw3, hh3⟩
    simp only [dotsLoop, Option.bind_eq_bind, genRangeNat_pos 0 w r hw,
      genRangeNat_pos 0 h r.next hh, Option.some_bind', hdc,
      putPixel_pos img _ _ color hx hy, hspk]
    exact hrec

theorem add_noise_dots_some_dims (img : RgbImage) (count : Nat) (r : Rng)
    (img2 : RgbImage) (r2 : Rng)
    (heq : add_noise_dots img count r = some (img2, r2)) :
    img2.width = img.width ∧ img2.height = img.height :=
  dotsLoop_some_dims img.width img.height count img r img2 r2 heq

theorem add_noise_dots_total (img : RgbImage) (count : Nat) (r : Rng)
    (hw : 0 < img.width) (hh : 0 < img.height) :
    ∃ img2 r2, add_noise_dots img count r = some (img2, r2) ∧
      img2.width = img.width ∧ img2.height = img.height :=
  dotsLoop_total img.width img.height hw hh count img r rfl rfl

/-! ### Lemmas about wave distortion -/

theorem create_background_some_dims (w h : Nat) (r : Rng) (img2 : RgbImage) (r2 : Rng)
    (heq : create_background w h r = some (img2, r2)) :
    img2.width = w ∧ img2.height = h := by
  obtain ⟨img3, r3, heq3, hw, hh, _⟩ := create_background_spec w h r
  rw [heq3] at heq
  simp only [Option.some.injEq, Prod.mk.injEq] at heq
  obtain ⟨h1, _⟩ := heq
  subst h1
  exact ⟨hw, hh⟩

theorem waveRow_some_dims (sinA : Rat → Rat) (src : RgbImage) (amp freq : Rat) (y : Nat) :
    ∀ (xs : List Nat) (acc : RgbImage) (acc2 : RgbImage),
      waveRow sinA src amp freq y xs acc = some acc2 →
      acc2.width = acc.width ∧ acc2.height = acc.height := by
  intro xs
  induction xs with
  | nil =>
    intro acc acc2 heq
    simp only [waveRow, Option.some.injEq] at heq
    subst heq
    exact ⟨rfl, rfl⟩
  | cons x xs ih =>
    intro acc acc2 heq
    simp only [waveRow, Option.bind_eq_bind, Option.bind_eq_some] at heq
    obtain ⟨px, _, heq⟩ := heq
    obtain ⟨acc1, hpp, heq⟩ := heq
    obtain ⟨hset, _, _⟩ := putPixel_some _ _ _ _ _ hpp
    subst hset
    have := ih _ _ heq
    exact ⟨this.1.trans (setPix_width _ _ _ _), this.2.trans (setPix_height _ _ _ _)⟩

theorem waveRows_some_dims (sinA : Rat → Rat) (src : RgbImage) (amp freq : Rat) :
    ∀ (ys : List Nat) (acc : RgbImage) (acc2 : RgbImage),
      waveRows sinA src amp freq ys acc = some acc2 →
      acc2.width = acc.width ∧ acc2.height = acc.height := by
  intro ys
  induction ys with
  | nil =>
    intro acc acc2 heq
    simp only [waveRows, Option.some.injEq] at heq
    subst heq
    exact ⟨rfl, rfl⟩
  | cons y ys ih =>
    intro acc acc2 heq
    simp only [waveRows, Option.bind_eq_bind, Option.bind_eq_some] at heq
    obtain ⟨acc1, h1, heq⟩ := heq
    have hd1 := waveRow_some_dims _ _ _ _ _ _ _ _ h1
    have hd2 := ih _ _ heq
    exact ⟨hd2.1.trans hd1.1, hd2.2.trans hd1.2⟩

theorem add_wave_distortion_some_dims (sinA : Rat → Rat) (img : RgbImage)
    (ar : Rat × Rat) (r : Rng) (img2 : RgbImage) (r2 : Rng)
    (heq : add_wave_distortion sinA img ar r = some (img2, r2)) :
    img2.width = img.width ∧ img2.height = img.height := by
  simp only [add_wave_distortion, Option.bind_eq_bind, Option.bind_eq_some] at heq
  obtain ⟨⟨bg, r1⟩, hbg, heq⟩ := heq
  obtain ⟨⟨amp, rr2⟩, _, heq⟩ := heq
  obtain ⟨⟨freq, r3⟩, _, heq⟩ := heq
  obtain ⟨out, hrows, heq⟩ := heq
  simp only [Option.pure_def, Option.some.injEq, Prod.mk.injEq] at heq
  obtain ⟨h1, _⟩ := heq
  subst h1
  have hd0 := create_background_some_dims _ _ _ _ _ hbg
  have hd1 := waveRows_some_dims _ _ _ _ _ _ _ hrows
  exact ⟨hd1.1.trans hd0.1, hd1.2.trans hd0.2⟩

theorem waveRow_spec (sinA : Rat → Rat) (src : RgbImage) (amp freq : Rat) (y : Nat)
    (hsw : 0 < src.width) (hy : y < src.height) :
    ∀ (xs : List Nat) (acc : RgbImage),
      acc.width = src.width → acc.height = src.height →
      (∀ x ∈ xs, x < src.width) →
      ∃ acc2, waveRow sinA src amp freq y xs acc = some acc2 ∧
        acc2.width = acc.width ∧ acc2.height = acc.height ∧
        (∀ x ∈ xs,
          acc2.pix x y = src.pix (waveSrcX src.width x (sinA ((y : Rat) * freq) * amp)) y) ∧
        (∀ a b, (b ≠ y ∨ a ∉ xs) → acc2.pix a b = acc.pix a b) := by
  intro xs
  induction xs with
  | nil =>
    intro acc _ _ _
    exact ⟨acc, rfl, rfl, rfl, by simp, fun a b _ => rfl⟩
  | cons x xs ih =>
    intro acc hw1 hh1 hxs
    have hxw : x < src.width := hxs x (by simp)
    have hsrc : waveSrcX src.width x (sinA ((y : Rat) * freq) * amp) < src.width := by
      unfold waveSrcX
      exact rustClamp0_lt _ _ src.width hsw rfl
    have hget := getPixel_pos src _ y hsrc hy
    obtain ⟨acc2, heq, hw2, hh2, hmem, hrest⟩ :=
      ih (setPix acc x y (src.pix (waveSrcX src.width x (sinA ((y : Rat) * freq) * amp)) y))
        (by rw [setPix_width]; exact hw1) (by rw [setPix_height]; exact hh1)
        (fun a ha => hxs a (by simp [ha]))
    refine ⟨acc2, ?_, by rw [hw2, setPix_width], by rw [hh2, setPix_height], ?_, ?_⟩
    · simp only [waveRow, Option.bind_eq_bind, hget, Option.some_bind',
        putPixel_pos acc x y _ (by rw [hw1]; exact hxw) (by rw [hh1]; exact hy)]
      exact heq
    · intro a ha
      rcases List.mem_cons.mp ha with h1 | h1
      · subst h1
        by_cases hmem2 : a ∈ xs
        · exact hmem a hmem2
        · rw [hrest a y (Or.inr hmem2), setPix_pix_eq]
      · exact hmem a h1
    · intro a b hab
      have hnotin : b ≠ y ∨ a ∉ xs := by
        rcases hab with h1 | h1
        · exact Or.inl h1
        · exact Or.inr (fun hc => h1 (List.mem_cons_of_mem _ hc))
      rw [hrest a b hnotin]
      apply setPix_pix_ne
      rintro ⟨rfl, rfl⟩
      rcases hab with h1 | h1
      · exact h1 rfl
      · exact h1 (List.mem_cons_self _ _)

theorem waveRows_spec (sinA : Rat → Rat) (src : RgbImage) (amp freq : Rat)
    (hsw : 0 < src.width) :
    ∀ (ys : List Nat) (acc : RgbImage),
      acc.width = src.width → acc.height = src.height →
      (∀ y ∈ ys, y < src.height) →
      ∃ acc2, waveRows sinA src amp freq ys acc = some acc2 ∧
        acc2.width = acc.width ∧ acc2.height = acc.height ∧
        (∀ y ∈ ys, ∀ x, x < src.width →
          acc2.pix x y = src.pix (waveSrcX src.width x (sinA ((y : Rat) * freq) * amp)) y) ∧
        (∀ a b, b ∉ ys → acc2.pix a b = acc.pix a b) := by
  intro ys
  induction ys with
  | nil =>
    intro acc _ _ _
    exact ⟨acc, rfl, rfl, rfl, by simp, fun a b _ => rfl⟩
  | cons y ys ih =>
    intro acc hw1 hh1 hys
    obtain ⟨acc1, heq1, hw2, hh2, hmem1, hrest1⟩ :=
      waveRow_spec sinA src amp freq y hsw (hys y (by simp)) (List.range src.width)
        acc hw1 hh1 (fun a ha => List.mem_range.mp ha)
    obtain ⟨acc2, heq2, hw3, hh3, hmem2, hrest2⟩ :=
      ih acc1 (hw2.trans hw1) (hh2.trans hh1)
        (fun a ha => hys a (by simp [ha]))
    refine ⟨acc2, ?_, by rw [hw3, hw2], by rw [hh3, hh2], ?_, ?_⟩
    · simp only [waveRows, Option.bind_eq_bind, heq1, Option.some_bind']
      exact heq2
    · intro b hb x hx
      rcases List.mem_cons.mp hb with h1 | h1
      · subst h1
        by_cases hbin : b ∈ ys
        · exact hmem2 b hbin x hx
        · rw [hrest2 x b hbin]
          exact hmem1 x (List.mem_range.mpr hx)
      · exact hmem2 b h1 x hx
    · intro a b hb
      have hnb : b ∉ ys := fun hc => hb (List.mem_cons_of_mem _ hc)
      rw [hrest2 a b hnb]
      exact hrest1 a b (Or.inl (fun hc => hb (hc ▸ List.mem_cons_self _ _)))

theorem add_wave_distortion_spec (sinA : Rat → Rat) (img : RgbImage)
    (ar : Rat × Rat) (r : Rng) (hw : 0 < img.width) (ha : ar.1 < ar.2) :
    ∃ out r2 amp freq, add_wave_distortion sinA img ar r = some (out, r2) ∧
      out.width = img.width ∧ out.height = img.height ∧
      (∀ x y, x < img.width → y < img.height →
        out.pix x y = img.pix (waveSrcX img.width x (sinA ((y : Rat) * freq) * amp)) y ∧
        waveSrcX img.width x (sinA ((y : Rat) * freq) * amp) < img.width) := by
  obtain ⟨bg, r1, hbg, hbw, hbh, _⟩ := create_background_spec img.width img.height r
  have hfr : (6 / 100 : Rat) < 9 / 100 := by norm_num
  obtain ⟨out, hrows, hww, hhh, hval, _⟩ :=
    waveRows_spec sinA img
      (ar.1 + ratFract (r1.rats r1.idx) * (ar.2 - ar.1))
      (6 / 100 + ratFract (r1.next.rats r1.next.idx) * (9 / 100 - 6 / 100))
      hw (List.range img.height) bg hbw hbh (fun a ha2 => List.mem_range.mp ha2)
  refine ⟨out, r1.next.next,
    ar.1 + ratFract (r1.rats r1.idx) * (ar.2 - ar.1),
    6 / 100 + ratFract (r1.next.rats r1.next.idx) * (9 / 100 - 6 / 100), ?_, ?_, ?_, ?_⟩
  · simp only [add_wave_distortion, Option.bind_eq_bind, hbg, Option.some_bind',
      genRangeRat_pos _ _ _ ha, genRangeRat_pos _ _ _ hfr, hrows, Option.pure_def]
  · rw [hww, hbw]
  · rw [hhh, hbh]
  · intro x y hx hy
    refine ⟨hval y (List.mem_range.mpr hy) x hx, ?_⟩
    unfold waveSrcX
    exact rustClamp0_lt _ _ img.width hw rfl

/-! ### Lemmas about code generation and the full pipeline -/

theorem generate_code_total :
    ∀ (len : Nat) (r : Rng), ∃ code r2, generate_code len r = some (code, r2) ∧
      code.length = len ∧ ∀ c ∈ code, c ∈ charset := by
  intro len
  induction len with
  | zero => intro r; exact ⟨[], r, rfl, rfl, by simp⟩
  | succ n ih =>
    intro r
    have hlen : 0 < charset.length := by decide
    have hidx : 0 + r.nats r.idx % (charset.length - 0) < charset.length :=
      genRangeNat_val_lt 0 charset.length _ hlen
    obtain ⟨code, r2, heq, hl, hm⟩ := ih r.next
    have hget : charset.get? (0 + r.nats r.idx % (charset.length - 0)) =
        some (charset.get ⟨_, hidx⟩) := List.get?_eq_get hidx
    refine ⟨charset.get ⟨_, hidx⟩ :: code, r2, ?_, by simp [hl], ?_⟩
    · simp only [generate_code, Option.bind_eq_bind, genRangeNat_pos _ _ _ hlen,
        Option.some_bind', hget, heq, Option.pure_def]
    · intro c hc
      rcases List.mem_cons.mp hc with h1 | h1
      · subst h1; exact List.get_mem _ _ _
      · exact hm c h1

theorem generate_captcha_image_some_dims (sinA cosA : Rat → Rat) (font : FontM)
    (code : List Char) (cfg : CaptchaConfig) (r : Rng) (img2 : RgbImage) (r2 : Rng)
    (heq : generate_captcha_image sinA cosA font code cfg r = some (img2, r2)) :
    img2.width = cfg.width ∧ img2.height = cfg.height := by
  simp only [generate_captcha_image, Option.bind_eq_bind, Option.bind_eq_some] at heq
  obtain ⟨⟨img0, r1⟩, h0, heq⟩ := heq
  obtain ⟨⟨i1, rr2⟩, h1, heq⟩ := heq
  obtain ⟨⟨i2, r3⟩, h2, heq⟩ := heq
  obtain ⟨⟨i3, r4⟩, h3, heq⟩ := heq
  have d0 := create_background_some_dims _ _ _ _ _ h0
  have d1 := draw_text_some_dims _ _ _ _ _ _ _ _ _ h1
  have d2 := add_interference_lines_some_dims _ _ _ _ _ _ h2
  have d3 := add_noise_dots_some_dims _ _ _ _ _ h3
  have d4 := add_wave_distortion_some_dims _ _ _ _ _ _ heq
  exact ⟨d4.1.trans (d3.1.trans (d2.1.trans (d1.1.trans d0.1))),
         d4.2.trans (d3.2.trans (d2.2.trans (d1.2.trans d0.2)))⟩

theorem generate_captcha_image_total (sinA cosA : Rat → Rat) (font : FontM)
    (code : List Char) (cfg : CaptchaConfig) (r : Rng)
    (hw : 0 < cfg.width) (hh : 0 < cfg.height)
    (hl : cfg.interference_lines.1 < cfg.interference_lines.2)
    (ha : cfg.wave_amplitude.1 < cfg.wave_amplitude.2) :
    ∃ img2 r2, generate_captcha_image sinA cosA font code cfg r = some (img2, r2) ∧
      img2.width = cfg.width ∧ img2.height = cfg.height := by
  obtain ⟨img0, r1, h0, hw0, hh0, _⟩ := create_background_spec cfg.width cfg.height r
  obtain ⟨⟨i1, rr2⟩, h1⟩ :=
    Option.isSome_iff_exists.mp (draw_text_isSome sinA cosA font img0 code cfg.font_size r1)
  have d1 := draw_text_some_dims _ _ _ _ _ _ _ _ _ h1
  obtain ⟨⟨i2, r3⟩, h2⟩ :=
    Option.isSome_iff_exists.mp
      (add_interference_lines_isSome sinA i1 cfg.interference_lines rr2 hl
        (by rw [d1.2, hh0]; exact hh))
  have d2 := add_interference_lines_some_dims _ _ _ _ _ _ h2
  obtain ⟨i3, r4, h3, hw3, hh3⟩ :=
    add_noise_dots_total i2 cfg.noise_dots r3
      (by rw [d2.1, d1.1, hw0]; exact hw) (by rw [d2.2, d1.2, hh0]; exact hh)
  obtain ⟨out, r5, amp, freq, h4, hw4, hh4, _⟩ :=
    add_wave_distortion_spec sinA i3 cfg.wave_amplitude r4
      (by rw [hw3, d2.1, d1.1, hw0]; exact hw) ha
  refine ⟨out, r5, ?_, ?_, ?_⟩
  · simp only [generate_captcha_image, Option.bind_eq_bind, h0, Option.some_bind',
      h1, h2, h3, h4]
  · rw [hw4, hw3, d2.1, d1.1, hw0]
  · rw [hh4, hh3, d2.2, d1.2, hh0]

/-! ## Concrete fixtures used by witnesses and counterexamples -/

/-- A concrete random source: both streams constantly zero. -/
def rng0 : Rng := ⟨fun _ => 0, fun _ => 0, 0⟩

/-- A concrete sine/cosine oracle that is constantly zero. -/
def sin0 : Rat → Rat := fun _ => 0

/-- A concrete sine oracle that is constantly `-3/4`. -/
def sinNeg : Rat → Rat := fun _ => -(3 / 4)

/-- A concrete font: fixed advance width 10, no glyph outline, empty mask. -/
def font0 : FontM := ⟨fun _ _ => 10, fun _ _ => none, fun _ _ => []⟩

/-- A 10-by-1 canvas whose pixel at column `x` stores `x` in its red
channel, so that source columns are observable. -/
def imgStripes : RgbImage := ⟨10, 1, fun x _ => ⟨x, 0, 0⟩⟩

/-- A 3-by-3 mid-gray canvas. -/
def imgGray : RgbImage := ⟨3, 3, fun _ _ => ⟨100, 100, 100⟩⟩

/-- A 1-by-1 black canvas. -/
def imgOne : RgbImage := ⟨1, 1, fun _ _ => ⟨0, 0, 0⟩⟩

/-- A small wholly nondegenerate configuration. -/
def cfgOk : CaptchaConfig := ⟨2, 2, 1, 20, (0, 1), 1, (1, 2)⟩

/-- A configuration with positive dimensions but an empty
interference-line range. -/
def cfgDegLines : CaptchaConfig := ⟨2, 2, 1, 20, (2, 2), 1, (1, 2)⟩

/-! ## Claim C1 -/

/-- C1 counterexample: the fixed alphabet of `generate_code` has 32
symbols, not the 33 the claim states. -/
theorem charset_not_33 : charset.length = 32 ∧ charset.length ≠ 33 := by decide

/-- C1 (amended): for every requested length `L ≥ 0`, `generate_code(L)`
returns (without error) a sequence of exactly `L` characters, each a
member of the fixed 32-symbol alphabet; `L = 0` yields the empty
sequence. -/
theorem generate_code_length_and_alphabet (len : Nat) (r : Rng) :
    charset.length = 32 ∧
    ∃ code r2, generate_code len r = some (code, r2) ∧
      code.length = len ∧ ∀ c ∈ code, c ∈ charset := by
  obtain ⟨code, r2, heq, hl, hm⟩ := generate_code_total len r
  exact ⟨by decide, code, r2, heq, hl, hm⟩

/-- C1 witness: the amended claim at length 6 and a concrete stream. -/
theorem generate_code_length_and_alphabet_witness :
    charset.length = 32 ∧
    ∃ code r2, generate_code 6 rng0 = some (code, r2) ∧
      code.length = 6 ∧ ∀ c ∈ code, c ∈ charset :=
  generate_code_length_and_alphabet 6 rng0

/-! ## Claim C2 -/

/-- The dimensions of the image component of a stage result. -/
def dimsOf (p : RgbImage × Rng) : Nat × Nat := (p.1.width, p.1.height)

theorem map_dims_getD (o : Option (RgbImage × Rng)) (w h : Nat)
    (hdim : ∀ img2 r2, o = some (img2, r2) → img2.width = w ∧ img2.height = h) :
    (o.map dimsOf).getD (w, h) = (w, h) := by
  cases o with
  | none => rfl
  | some p =>
    obtain ⟨img2, r2⟩ := p
    have := hdim img2 r2 rfl
    simp only [Option.map_some', Option.getD_some, dimsOf]
    rw [this.1, this.2]

/-- C2: whenever a pipeline stage produces a buffer it has the same
dimensions as its input (the wave stage's freshly produced buffer
included), and the full pipeline produces a buffer of exactly the
configured width and height. -/
theorem pipeline_preserves_dims (sinA cosA : Rat → Rat) (font : FontM)
    (code text : List Char) (cfg : CaptchaConfig) (img : RgbImage)
    (lr : Nat × Nat) (cnt : Nat) (ar : Rat × Rat) (fs : Rat) (r : Rng) :
    ((create_background cfg.width cfg.height r).map dimsOf).getD (cfg.width, cfg.height)
        = (cfg.width, cfg.height) ∧
    ((draw_text sinA cosA font img text fs r).map dimsOf).getD (img.width, img.height)
        = (img.width, img.height) ∧
    ((add_interference_lines sinA img lr r).map dimsOf).getD (img.width, img.height)
        = (img.width, img.height) ∧
    ((add_noise_dots img cnt r).map dimsOf).getD (img.width, img.height)
        = (img.width, img.height) ∧
    ((add_wave_distortion sinA img ar r).map dimsOf).getD (img.width, img.height)
        = (img.width, img.height) ∧
    ((generate_captcha_image sinA cosA font code cfg r).map dimsOf).getD
        (cfg.width, cfg.height) = (cfg.width, cfg.height) := by
  refine ⟨?_, ?_, ?_, ?_, ?_, ?_⟩
  · exact map_dims_getD _ _ _ (fun i2 s2 h => create_background_some_dims _ _ _ _ _ h)
  · exact map_dims_getD _ _ _ (fun i2 s2 h => draw_text_some_dims _ _ _ _ _ _ _ _ _ h)
  · exact map_dims_getD _ _ _ (fun i2 s2 h => add_interference_lines_some_dims _ _ _ _ _ _ h)
  · exact map_dims_getD _ _ _ (fun i2 s2 h => add_noise_dots_some_dims _ _ _ _ _ h)
  · exact map_dims_getD _ _ _ (fun i2 s2 h => add_wave_distortion_some_dims _ _ _ _ _ _ h)
  · exact map_dims_getD _ _ _ (fun i2 s2 h => generate_captcha_image_some_dims _ _ _ _ _ _ _ _ h)

/-! ## Claim C5 -/

/-- C5: for every positive width and height, the background synthesizer
succeeds and every channel of every pixel it produces lies in
`[240, 255]`. -/
theorem create_background_channels_in_range (w h : Nat) (r : Rng)
    (hw : 1 ≤ w) (hh : 1 ≤ h) :
    ∃ img r2, create_background w h r = some (img, r2) ∧
      ∀ x y, x < w → y < h →
        240 ≤ (img.pix x y).r ∧ (img.pix x y).r ≤ 255 ∧
        240 ≤ (img.pix x y).g ∧ (img.pix x y).g ≤ 255 ∧
        240 ≤ (img.pix x y).b ∧ (img.pix x y).b ≤ 255 := by
  obtain ⟨img, r2, heq, _, _, hrange⟩ := create_background_spec w h r
  exact ⟨img, r2, heq, fun x y hx hy => hrange x y hx hy⟩

/-- C5 witness: the claim at a concrete 2-by-2 canvas and stream. -/
theorem create_background_channels_in_range_witness :
    ∃ img r2, create_background 2 2 rng0 = some (img, r2) ∧
      ∀ x y, x < 2 → y < 2 →
        240 ≤ (img.pix x y).r ∧ (img.pix x y).r ≤ 255 ∧
        240 ≤ (img.pix x y).g ∧ (img.pix x y).g ≤ 255 ∧
        240 ≤ (img.pix x y).b ∧ (img.pix x y).b ≤ 255 :=
  create_background_channels_in_range 2 2 rng0 (by decide) (by decide)

/-! ## Claim C10 -/

/-- C10: the generation is deterministic in the consumed randomness — two
runs with the same configuration whose random sources agree draw for draw
produce the same code and the same image. -/
theorem with_config_deterministic (sinA cosA : Rat → Rat) (font : FontM)
    (cfg : CaptchaConfig) (r1 r2 : Rng)
    (hn : ∀ i, r1.nats i = r2.nats i) (hq : ∀ i, r1.rats i = r2.rats i)
    (hi : r1.idx = r2.idx) :
    Captcha.with_config sinA cosA font cfg r1 =
      Captcha.with_config sinA cosA font cfg r2 := by
  obtain ⟨n1, q1, i1⟩ := r1
  obtain ⟨n2, q2, i2⟩ := r2
  have h1 : n1 = n2 := funext hn
  have h2 : q1 = q2 := funext hq
  dsimp only at hi
  subst h1
  subst h2
  subst hi
  rfl

/-- C10 witness: the claim at a concrete configuration and stream. -/
theorem with_config_deterministic_witness :
    Captcha.with_config sin0 sin0 font0 cfgOk rng0 =
      Captcha.with_config sin0 sin0 font0 cfgOk rng0 :=
  with_config_deterministic sin0 sin0 font0 cfgOk rng0 rng0
    (fun _ => rfl) (fun _ => rfl) rfl

/-! ## Claim C3 -/

/-- C3 counterexample: the wave pass converts the offset with `as i32`,
truncation toward zero, not floor.  With offset `-3/2` (the constant
`-3/4` sine times the sampled amplitude 2) and destination column 5 on a
width-10 canvas, the code samples source column `5 + (-1) = 4`, while the
claim's floor formula predicts `5 + (-2) = 3`, and those columns hold
different pixels. -/
theorem wave_distortion_floor_cex :
    ((add_wave_distortion sinNeg imgStripes (2, 3) rng0).map (fun p => p.1.pix 5 0))
        = some (imgStripes.pix 4 0) ∧
    waveSrcX 10 5 (-(3 / 2)) = 4 ∧
    (min (max ((5 : Int) + ⌊(-(3 / 2) : Rat)⌋) 0) ((10 : Int) - 1)).toNat = 3 ∧
    imgStripes.pix 4 0 ≠ imgStripes.pix 3 0 := by
  refine ⟨?_, ?_, ?_, ?_⟩
  · with_unfolding_all decide
  · with_unfolding_all decide
  · with_unfolding_all decide
  · with_unfolding_all decide

/-- C3 (amended): in the wave pass, for a canvas of width at least 1 and a
nondegenerate amplitude range, a single amplitude and frequency are
sampled, and every destination pixel `(x, y)` copies the input pixel at
source column `x` plus the offset `amplitude * sin(frequency * y)`
converted with saturating truncation toward zero (not floor), clamped to
`[0, width-1]`; the sampled source column is always within bounds. -/
theorem wave_distortion_pixel_spec (sinA : Rat → Rat) (img : RgbImage)
    (ar : Rat × Rat) (r : Rng) (hw : 1 ≤ img.width) (ha : ar.1 < ar.2) :
    ∃ out r2 amp freq, add_wave_distortion sinA img ar r = some (out, r2) ∧
      ∀ x y, x < img.width → y < img.height →
        waveSrcX img.width x (sinA ((y : Rat) * freq) * amp) =
          (min (max ((x : Int) + f32AsI32 (sinA ((y : Rat) * freq) * amp)) 0)
            ((img.width : Int) - 1)).toNat ∧
        waveSrcX img.width x (sinA ((y : Rat) * freq) * amp) < img.width ∧
        out.pix x y = img.pix (waveSrcX img.width x (sinA ((y : Rat) * freq) * amp)) y := by
  obtain ⟨out, r2, amp, freq, heq, _, _, hval⟩ :=
    add_wave_distortion_spec sinA img ar r hw ha
  refine ⟨out, r2, amp, freq, heq, fun x y hx hy => ⟨rfl, (hval x y hx hy).2, (hval x y hx hy).1⟩⟩

/-- C3 witness: the amended claim at a concrete canvas, range and
stream. -/
theorem wave_distortion_pixel_spec_witness :
    ∃ out r2 amp freq, add_wave_distortion sinNeg imgStripes (2, 3) rng0 = some (out, r2) ∧
      ∀ x y, x < imgStripes.width → y < imgStripes.height →
        waveSrcX imgStripes.width x (sinNeg ((y : Rat) * freq) * amp) =
          (min (max ((x : Int) + f32AsI32 (sinNeg ((y : Rat) * freq) * amp)) 0)
            ((imgStripes.width : Int) - 1)).toNat ∧
        waveSrcX imgStripes.width x (sinNeg ((y : Rat) * freq) * amp) < imgStripes.width ∧
        out.pix x y = imgStripes.pix (waveSrcX imgStripes.width x (sinNeg ((y : Rat) * freq) * amp)) y :=
  wave_distortion_pixel_spec sinNeg imgStripes (2, 3) rng0 (by decide) (by norm_num)

/-! ## Claim C4 -/

/-- C4 counterexample: a configuration with positive width and height but
an empty interference-line range makes the generation pipeline panic
(`gen_range` on an empty range), modelled as `none` — it is not clamped
or silently skipped. -/
theorem pipeline_degenerate_range_panics :
    0 < cfgDegLines.width ∧ 0 < cfgDegLines.height ∧
    cfgDegLines.interference_lines.1 ≥ cfgDegLines.interference_lines.2 ∧
    (Captcha.with_config sin0 sin0 font0 cfgDegLines rng0).isNone = true := by
  refine ⟨by decide, by decide, by decide, ?_⟩
  with_unfolding_all decide

/-- C4 (amended): for every configuration with positive width and height
whose interference-line range and wave-amplitude range are nondegenerate
(min < max), the generation pipeline raises no error during code
generation or drawing. -/
theorem pipeline_total_nondegenerate (sinA cosA : Rat → Rat) (font : FontM)
    (cfg : CaptchaConfig) (r : Rng) (hw : 0 < cfg.width) (hh : 0 < cfg.height)
    (hl : cfg.interference_lines.1 < cfg.interference_lines.2)
    (ha : cfg.wave_amplitude.1 < cfg.wave_amplitude.2) :
    (Captcha.with_config sinA cosA font cfg r).isSome = true := by
  obtain ⟨code, r1, hcode, _, _⟩ := generate_code_total cfg.code_length r
  obtain ⟨img, r2, himg, _, _⟩ :=
    generate_captcha_image_total sinA cosA font code cfg r1 hw hh hl ha
  simp only [Captcha.with_config, Option.bind_eq_bind, hcode, Option.some_bind',
    himg, Option.pure_def, Option.isSome_some]

/-- C4 witness: the amended claim at a concrete nondegenerate
configuration. -/
theorem pipeline_total_nondegenerate_witness :
    (Captcha.with_config sin0 sin0 font0 cfgOk rng0).isSome = true :=
  pipeline_total_nondegenerate sin0 sin0 font0 cfgOk rng0
    (by decide) (by decide) (by decide) (by norm_num [cfgOk])

/-! ## Claim C6 -/

theorem totalWidth_fold (font : FontM) (scale : Rat) :
    ∀ (text : List Char) (init : Rat),
      text.foldl (fun acc ch => acc + font.advance scale ch + charSpacing) init =
        init + (text.map (font.advance scale)).sum + text.length * charSpacing := by
  intro text
  induction text with
  | nil => intro init; simp
  | cons ch t ih =>
    intro init
    simp only [List.foldl_cons, List.map_cons, List.sum_cons, List.length_cons, ih]
    push_cast
    ring

/-- C6: for a non-empty code string of `N` characters, the total line
width of `draw_text` equals the sum of the advance widths plus `(N-1)`
times the fixed spacing constant 8; the starting x position is
`(canvas width - total width) / 2`; the baseline is
`canvas height / 2 + font_size / 3`. -/
theorem draw_text_layout (font : FontM) (scale fs : Rat) (text : List Char)
    (hne : text ≠ []) (w h : Nat) :
    totalWidth font scale text =
      (text.map (font.advance scale)).sum + ((text.length - 1 : Nat) : Rat) * charSpacing ∧
    charSpacing = 8 ∧
    startX w (totalWidth font scale text) = ((w : Rat) - totalWidth font scale text) / 2 ∧
    baseY h fs = (h : Rat) / 2 + fs / 3 := by
  refine ⟨?_, rfl, rfl, rfl⟩
  unfold totalWidth
  rw [totalWidth_fold]
  have hlen : 1 ≤ text.length := List.length_pos.mpr hne
  rw [Nat.cast_sub hlen, Nat.cast_one]
  ring

/-- C6 witness: the layout equations at a concrete font and the
two-character string. -/
theorem draw_text_layout_witness :
    totalWidth font0 20 ['A', 'B'] =
      ((['A', 'B'] : List Char).map (font0.advance 20)).sum +
        (((['A', 'B'] : List Char).length - 1 : Nat) : Rat) * charSpacing ∧
    charSpacing = 8 ∧
    startX 30 (totalWidth font0 20 ['A', 'B']) =
      ((30 : Rat) - totalWidth font0 20 ['A', 'B']) / 2 ∧
    baseY 10 20 = (10 : Rat) / 2 + 20 / 3 :=
  draw_text_layout font0 20 20 ['A', 'B'] (by decide) 30 10

/-! ## Claim C8 -/

/-- C8: a character whose glyph has no bounding box draws nothing and
raises no error — `draw_character` leaves the canvas unchanged — yet the
text loop still advances the cursor by the character's advance width plus
the spacing constant (and consumes the same six random draws). -/
theorem missing_glyph_skipped (sinA cosA : Rat → Rat) (font : FontM) (img : RgbImage)
    (ch : Char) (params : CharDrawParams) (scale base_y cx : Rat) (rest : List Char)
    (r : Rng) (hbb : font.bbox scale ch = none) :
    draw_character sinA cosA img ch params font scale = img ∧
    drawTextLoop sinA cosA font scale base_y (ch :: rest) img cx r =
      drawTextLoop sinA cosA font scale base_y rest img
        (cx + font.advance scale ch + charSpacing) { r with idx := r.idx + 6 } := by
  have hchar : ∀ p : CharDrawParams, draw_character sinA cosA img ch p font scale = img := by
    intro p
    unfold draw_character
    rw [hbb]
  refine ⟨hchar params, ?_⟩
  have h1 : (-(26 / 100) : Rat) < 26 / 100 := by norm_num
  have h2 : (-5 : Rat) < 5 := by norm_num
  have h3 : (-2 : Rat) < 2 := by norm_num
  have h4 : (30 : Nat) < 70 := by omega
  obtain ⟨nn, qq, ii⟩ := r
  simp only [drawTextLoop, Option.bind_eq_bind,
    genRangeRat_pos _ _ _ h1, genRangeRat_pos _ _ _ h2, genRangeRat_pos _ _ _ h3,
    genRangeNat_pos _ _ _ h4, Option.some_bind', hchar]
  norm_num [Rng.next]

/-- C8 witness: the claim at a concrete font with no glyph outline. -/
theorem missing_glyph_skipped_witness :
    draw_character sin0 sin0 imgGray 'A' ⟨1, 1, 0, ⟨50, 50, 50⟩⟩ font0 20 = imgGray ∧
    drawTextLoop sin0 sin0 font0 20 5 ['A'] imgGray 0 rng0 =
      drawTextLoop sin0 sin0 font0 20 5 [] imgGray
        (0 + font0.advance 20 'A' + charSpacing) { rng0 with idx := rng0.idx + 6 } :=
  missing_glyph_skipped sin0 sin0 font0 imgGray 'A' ⟨1, 1, 0, ⟨50, 50, 50⟩⟩ 20 5 0 [] rng0 rfl

/-! ## Claim C9 -/

/-- C9: for any canvas with positive width and height and any dot count,
the noise-dot injector performs only in-bounds writes — it never panics —
and each write through `put_pixel` fully overwrites the target pixel with
the dot colour and changes no other pixel. -/
theorem noise_dots_writes_in_bounds :
    (∀ (img : RgbImage) (count : Nat) (r : Rng), 1 ≤ img.width → 1 ≤ img.height →
      (add_noise_dots img count r).isSome = true) ∧
    (∀ (img img2 : RgbImage) (x y : Nat) (c : Rgb),
      putPixel img x y c = some img2 →
      img2.pix x y = c ∧ ∀ a b, ¬(a = x ∧ b = y) → img2.pix a b = img.pix a b) := by
  constructor
  · intro img count r hw hh
    obtain ⟨img2, r2, heq, _, _⟩ := add_noise_dots_total img count r hw hh
    rw [heq]
    rfl
  · intro img img2 x y c hpp
    obtain ⟨hset, _, _⟩ := putPixel_some _ _ _ _ _ hpp
    subst hset
    exact ⟨setPix_pix_eq _ _ _ _, fun a b hab => setPix_pix_ne _ _ _ _ _ _ hab⟩

/-- C9 witness: the claim at a concrete 1-by-1 canvas, and a concrete
in-bounds write. -/
theorem noise_dots_writes_in_bounds_witness :
    (add_noise_dots imgOne 1 rng0).isSome = true ∧
    (setPix imgOne 0 0 ⟨9, 9, 9⟩).pix 0 0 = ⟨9, 9, 9⟩ ∧
    (setPix imgOne 0 0 ⟨9, 9, 9⟩).pix 1 1 = imgOne.pix 1 1 :=
  ⟨noise_dots_writes_in_bounds.1 imgOne 1 rng0 (by decide) (by decide),
   (noise_dots_writes_in_bounds.2 imgOne (setPix imgOne 0 0 ⟨9, 9, 9⟩) 0 0 ⟨9, 9, 9⟩
      (putPixel_pos imgOne 0 0 ⟨9, 9, 9⟩ (by decide) (by decide))).1,
   (noise_dots_writes_in_bounds.2 imgOne (setPix imgOne 0 0 ⟨9, 9, 9⟩) 0 0 ⟨9, 9, 9⟩
      (putPixel_pos imgOne 0 0 ⟨9, 9, 9⟩ (by decide) (by decide))).2 1 1 (by decide)⟩

/-! ## Claim C7 -/

/-- C7: for a coverage sample of opacity `v`: below the `0.01` threshold
nothing changes; at or above it, when the transformed integer pixel lies
within canvas bounds the sample is alpha-composited over the existing
pixel, `out = bg*(1-a) + color*a` per channel with truncation toward
zero, and no other pixel changes (captured by `setPix`); when the
transformed pixel falls outside the canvas nothing changes.  The blend
rounds toward zero exactly whenever the inputs are in byte range and
`0 ≤ v ≤ 1`. -/
theorem draw_sample_blend_spec (img : RgbImage) (bb : BBox) (params : CharDrawParams)
    (cos_r sin_r : Rat) (gx gy : Nat) (v : Rat) :
    (v < 1 / 100 → drawSample img bb params cos_r sin_r gx gy v = img) ∧
    (¬ v < 1 / 100 →
      (0 ≤ sampleFx bb params cos_r sin_r gx gy ∧ 0 ≤ sampleFy bb params cos_r sin_r gx gy ∧
        (sampleFx bb params cos_r sin_r gx gy).toNat < img.width ∧
        (sampleFy bb params cos_r sin_r gx gy).toNat < img.height) →
      drawSample img bb params cos_r sin_r gx gy v =
        setPix img (sampleFx bb params cos_r sin_r gx gy).toNat
          (sampleFy bb params cos_r sin_r gx gy).toNat
          ⟨blendChannel (img.pix (sampleFx bb params cos_r sin_r gx gy).toNat
              (sampleFy bb params cos_r sin_r gx gy).toNat).r params.color.r v,
            blendChannel (img.pix (sampleFx bb params cos_r sin_r gx gy).toNat
              (sampleFy bb params cos_r sin_r gx gy).toNat).g params.color.g v,
            blendChannel (img.pix (sampleFx bb params cos_r sin_r gx gy).toNat
              (sampleFy bb params cos_r sin_r gx gy).toNat).b params.color.b v⟩) ∧
    (¬ v < 1 / 100 →
      ¬(0 ≤ sampleFx bb params cos_r sin_r gx gy ∧ 0 ≤ sampleFy bb params cos_r sin_r gx gy ∧
        (sampleFx bb params cos_r sin_r gx gy).toNat < img.width ∧
        (sampleFy bb params cos_r sin_r gx gy).toNat < img.height) →
      drawSample img bb params cos_r sin_r gx gy v = img) ∧
    (∀ bgc cc : Nat, 0 ≤ v → v ≤ 1 → bgc ≤ 255 → cc ≤ 255 →
      (blendChannel bgc cc v : Int) = ratTrunc ((bgc : Rat) * (1 - v) + (cc : Rat) * v)) := by
  refine ⟨?_, ?_, ?_, ?_⟩
  · intro hv
    unfold drawSample
    rw [if_pos hv]
  · intro hv hin
    unfold drawSample
    rw [if_neg hv]
    dsimp only
    rw [if_pos ⟨hin.1, hin.2.1⟩]
    rw [if_pos ⟨hin.2.2.1, hin.2.2.2⟩]
  · intro hv hout
    unfold drawSample
    rw [if_neg hv]
    dsimp only
    by_cases h1 : 0 ≤ sampleFx bb params cos_r sin_r gx gy ∧
        0 ≤ sampleFy bb params cos_r sin_r gx gy
    · rw [if_pos h1]
      by_cases h2 : (sampleFx bb params cos_r sin_r gx gy).toNat < img.width ∧
          (sampleFy bb params cos_r sin_r gx gy).toNat < img.height
      · exact absurd ⟨h1.1, h1.2, h2.1, h2.2⟩ hout
      · rw [if_neg h2]
    · rw [if_neg h1]
  · intro bgc cc hv0 hv1 hbg hcc
    unfold blendChannel f32AsU8
    have h1 : (bgc : Rat) ≤ 255 := by exact_mod_cast hbg
    have h2 : (cc : Rat) ≤ 255 := by exact_mod_cast hcc
    have hv1' : (0 : Rat) ≤ 1 - v := by linarith
    have hq0 : 0 ≤ (bgc : Rat) * (1 - v) + (cc : Rat) * v := by
      have e1 : (0 : Rat) ≤ (bgc : Rat) * (1 - v) :=
        mul_nonneg (by positivity) hv1'
      have e2 : (0 : Rat) ≤ (cc : Rat) * v := mul_nonneg (by positivity) hv0
      linarith
    have hq255 : (bgc : Rat) * (1 - v) + (cc : Rat) * v ≤ 255 := by
      have e1 : (bgc : Rat) * (1 - v) ≤ 255 * (1 - v) :=
        mul_le_mul_of_nonneg_right h1 hv1'
      have e2 : (cc : Rat) * v ≤ 255 * v := mul_le_mul_of_nonneg_right h2 hv0
      linarith
    have ht : ratTrunc ((bgc : Rat) * (1 - v) + (cc : Rat) * v) =
        ⌊(bgc : Rat) * (1 - v) + (cc : Rat) * v⌋ := by
      unfold ratTrunc
      rw [if_pos hq0]
    have hf0 : 0 ≤ ⌊(bgc : Rat) * (1 - v) + (cc : Rat) * v⌋ := Int.floor_nonneg.mpr hq0
    have hf255 : ⌊(bgc : Rat) * (1 - v) + (cc : Rat) * v⌋ ≤ 255 := by
      have h3 := Int.floor_mono hq255
      simpa using h3
    rw [ht]
    have hmm : max 0 (min 255 ⌊(bgc : Rat) * (1 - v) + (cc : Rat) * v⌋) =
        ⌊(bgc : Rat) * (1 - v) + (cc : Rat) * v⌋ := by omega
    rw [hmm]
    exact Int.toNat_of_nonneg hf0

/-- C7 witness: the four cases of the claim at concrete samples on a
3-by-3 gray canvas. -/
theorem draw_sample_blend_spec_witness :
    (drawSample imgGray ⟨0, 0, 4, 4⟩ ⟨1, 1, 0, ⟨50, 50, 50⟩⟩ 1 0 0 0 0 = imgGray) ∧
    (drawSample imgGray ⟨0, 0, 4, 4⟩ ⟨1, 1, 0, ⟨50, 50, 50⟩⟩ 1 0 0 0 1 =
      setPix imgGray (sampleFx ⟨0, 0, 4, 4⟩ ⟨1, 1, 0, ⟨50, 50, 50⟩⟩ 1 0 0 0).toNat
        (sampleFy ⟨0, 0, 4, 4⟩ ⟨1, 1, 0, ⟨50, 50, 50⟩⟩ 1 0 0 0).toNat
        ⟨blendChannel (imgGray.pix (sampleFx ⟨0, 0, 4, 4⟩ ⟨1, 1, 0, ⟨50, 50, 50⟩⟩ 1 0 0 0).toNat
            (sampleFy ⟨0, 0, 4, 4⟩ ⟨1, 1, 0, ⟨50, 50, 50⟩⟩ 1 0 0 0).toNat).r 50 1,
          blendChannel (imgGray.pix (sampleFx ⟨0, 0, 4, 4⟩ ⟨1, 1, 0, ⟨50, 50, 50⟩⟩ 1 0 0 0).toNat
            (sampleFy ⟨0, 0, 4, 4⟩ ⟨1, 1, 0, ⟨50, 50, 50⟩⟩ 1 0 0 0).toNat).g 50 1,
          blendChannel (imgGray.pix (sampleFx ⟨0, 0, 4, 4⟩ ⟨1, 1, 0, ⟨50, 50, 50⟩⟩ 1 0 0 0).toNat
            (sampleFy ⟨0, 0, 4, 4⟩ ⟨1, 1, 0, ⟨50, 50, 50⟩⟩ 1 0 0 0).toNat).b 50 1⟩) ∧
    (drawSample imgGray ⟨0, 0, 4, 4⟩ ⟨100, 1, 0, ⟨50, 50, 50⟩⟩ 1 0 0 0 1 = imgGray) ∧
    ((blendChannel 100 50 (1 / 2) : Int) =
      ratTrunc ((100 : Rat) * (1 - 1 / 2) + (50 : Rat) * (1 / 2))) :=
  ⟨(draw_sample_blend_spec imgGray ⟨0, 0, 4, 4⟩ ⟨1, 1, 0, ⟨50, 50, 50⟩⟩ 1 0 0 0 0).1
      (by norm_num),
   (draw_sample_blend_spec imgGray ⟨0, 0, 4, 4⟩ ⟨1, 1, 0, ⟨50, 50, 50⟩⟩ 1 0 0 0 1).2.1
      (by norm_num) (by with_unfolding_all decide),
   (draw_sample_blend_spec imgGray ⟨0, 0, 4, 4⟩ ⟨100, 1, 0, ⟨50, 50, 50⟩⟩ 1 0 0 0 1).2.2.1
      (by norm_num) (by with_unfolding_all decide),
   (draw_sample_blend_spec imgGray ⟨0, 0, 4, 4⟩ ⟨1, 1, 0, ⟨50, 50, 50⟩⟩ 1 0 0 0 (1 / 2)).2.2.2
      100 50 (by norm_num) (by norm_num) (by omega) (by omega)⟩
